import Mathlib

/-!
Verification of the URL query-string construction engine of the `ts-axios`
teaching repository (`helpers/url.ts`): the `encode` percent-encoder with its
allow-list restore chain, and the `buildURL` builder with its custom
`paramsSerializer`, `URLSearchParams` and default structured serialization
paths, as given in `docs/chapter4/url.md` and `docs/chapter10/paramsSerializer.md`.

Strings are handled at the `List Char` level where that makes the reasoning
tractable; `String` wrappers mirror the TypeScript signatures.
-/

/-! ## JavaScript value model

A `JSValue` models the values a `params` object can hold: scalars, `null`,
`undefined`, `Date` objects (carrying the result of `toISOString()`), arrays
and plain objects.  Arrays and object field lists are their own inductives so
that all recursion over them is structural. -/

mutual

inductive JSValue where
  | vStr (s : String)
  | vNum (n : Int)
  | vBool (b : Bool)
  | vNull
  | vUndef
  | vDate (iso : String)
  | vArr (elems : JSList)
  | vObj (fields : JSFields)
  deriving DecidableEq

inductive JSList where
  | nil
  | cons (hd : JSValue) (tl : JSList)
  deriving DecidableEq

inductive JSFields where
  | fnil
  | fcons (key : String) (val : JSValue) (tl : JSFields)
  deriving DecidableEq

end

def JSList.toList : JSList → List JSValue
  | .nil => []
  | .cons v tl => v :: JSList.toList tl

def fieldsToList : JSFields → List (String × JSValue)
  | .fnil => []
  | .fcons k v tl => (k, v) :: fieldsToList tl

/-- Model of `Array.prototype.join(sep)` (`parts.join('&')` in the source):
the separator is placed between consecutive elements, nothing else. -/
def joinSep (sep : String) : List String → String
  | [] => ""
  | [x] => x
  | x :: y :: xs => x ++ sep ++ joinSep sep (y :: xs)

/-! ## The platform `encodeURIComponent`

`encodeURIComponent` leaves ASCII alphanumerics and `- _ . ! ~ * ' ( )`
untouched and percent-escapes every other character byte-wise (UTF-8,
uppercase hex).  We model its output as a flat rendering of a token list:
each token is either a kept raw character or a `%XY` escape. -/

def isUnreservedChar (c : Char) : Bool :=
  ('A' ≤ c && c ≤ 'Z') || ('a' ≤ c && c ≤ 'z') || ('0' ≤ c && c ≤ '9') ||
  c == '-' || c == '_' || c == '.' || c == '!' || c == '~' || c == '*' ||
  c == '\'' || c == '(' || c == ')'

def upHexChars : List Char :=
  ['0', '1', '2', '3', '4', '5', '6', '7', '8', '9', 'A', 'B', 'C', 'D', 'E', 'F']

def isUpHex (c : Char) : Bool := upHexChars.contains c

/-- Uppercase hexadecimal digit for `n < 16` (total for convenience). -/
def hexU (n : Nat) : Char := upHexChars.getD n '0'

/-- UTF-8 bytes of a character. -/
def utf8Bytes (c : Char) : List Nat :=
  let n := c.toNat
  if n < 0x80 then [n]
  else if n < 0x800 then
    [0xC0 ||| (n >>> 6), 0x80 ||| (n &&& 0x3F)]
  else if n < 0x10000 then
    [0xE0 ||| (n >>> 12), 0x80 ||| ((n >>> 6) &&& 0x3F), 0x80 ||| (n &&& 0x3F)]
  else
    [0xF0 ||| (n >>> 18), 0x80 ||| ((n >>> 12) &&& 0x3F),
     0x80 ||| ((n >>> 6) &&& 0x3F), 0x80 ||| (n &&& 0x3F)]

/-- A token of percent-encoded output: a kept character or one `%XY` escape. -/
inductive Tok where
  | raw (c : Char)
  | esc (a b : Char)
  deriving DecidableEq

def flatTok : Tok → List Char
  | .raw c => [c]
  | .esc a b => ['%', a, b]

def flatten (ts : List Tok) : List Char := (ts.map flatTok).flatten

/-- Tokens produced for one input character by `encodeURIComponent`. -/
def encTokens (c : Char) : List Tok :=
  if isUnreservedChar c then [.raw c]
  else (utf8Bytes c).map (fun b => .esc (hexU (b / 16)) (hexU (b % 16)))

def strTokens (l : List Char) : List Tok := (l.map encTokens).flatten

/-- Model of `encodeURIComponent` on a character list. -/
def percentEncodeL (l : List Char) : List Char := flatten (strTokens l)

/-! ## The `.replace(/%XY/g, r)` chain of `encode`

Every pattern in the source chain is a three-character literal `%XY`, replaced
globally, some case-insensitively (`/gi`).  `replaceTri` scans left to right,
replaces a match and resumes after it, exactly like a global regex replace of
a three-character literal. -/

/-- Character comparison used by the regex: exact for `/g`,
ASCII-case-insensitive for `/gi`. -/
def chEq (ci : Bool) (a b : Char) : Bool :=
  if ci then a.toLower == b.toLower else a == b

/-- Global replacement of the three-character pattern `p0 p1 p2` by the single
character `r`; `ci` selects case-insensitive matching. -/
def replaceTri (p0 p1 p2 : Char) (r : Char) (ci : Bool) : List Char → List Char
  | c0 :: c1 :: c2 :: rest =>
    if chEq ci c0 p0 && chEq ci c1 p1 && chEq ci c2 p2 then
      r :: replaceTri p0 p1 p2 r ci rest
    else
      c0 :: replaceTri p0 p1 p2 r ci (c1 :: c2 :: rest)
  | l => l

/-- One pass of the `encode` replace chain. -/
structure Pass where
  p0 : Char
  p1 : Char
  p2 : Char
  r : Char
  ci : Bool
  deriving DecidableEq

def runPass (l : List Char) (p : Pass) : List Char :=
  replaceTri p.p0 p.p1 p.p2 p.r p.ci l

/-- The seven replacement passes of `encode`, in source order:
`%40→@` (g), `%3A→:` (gi), `%24→$` (g), `%2C→,` (gi), `%20→+` (g),
`%5B→[` (gi), `%5D→]` (gi). -/
def encodePasses : List Pass :=
  [⟨'%', '4', '0', '@', false⟩,
   ⟨'%', '3', 'A', ':', true⟩,
   ⟨'%', '2', '4', '$', false⟩,
   ⟨'%', '2', 'C', ',', true⟩,
   ⟨'%', '2', '0', '+', false⟩,
   ⟨'%', '5', 'B', '[', true⟩,
   ⟨'%', '5', 'D', ']', true⟩]

/-- Source `helpers/url.ts` `encode`: `encodeURIComponent` followed by the seven
allow-list restores. -/
def encode (val : String) : String :=
  (encodePasses.foldl runPass (percentEncodeL val.toList)).asString

/-! ## JSON.stringify and JS string coercion -/

/-- One character of a JSON string literal body. -/
def jsonEscChar (c : Char) : String :=
  if c = '"' then "\\\""
  else if c = '\\' then "\\\\"
  else if c = '\x08' then "\\b"
  else if c = '\x09' then "\\t"
  else if c = '\x0a' then "\\n"
  else if c = '\x0c' then "\\f"
  else if c = '\x0d' then "\\r"
  else if c.toNat < 0x20 then
    "\\u00" ++ String.singleton (hexU (c.toNat / 16)) ++ String.singleton (hexU (c.toNat % 16))
  else String.singleton c

/-- JSON string literal for `s`. -/
def jsonStr (s : String) : String :=
  "\"" ++ String.join (s.toList.map jsonEscChar) ++ "\""

mutual

/-- Model of `JSON.stringify` (compact, no spacing); `none` models the JS result
`undefined`. `Date` serializes through `toJSON` as its ISO string. -/
def jsonVal : JSValue → Option String
  | .vStr s => some (jsonStr s)
  | .vNum n => some (toString n)
  | .vBool b => some (if b then "true" else "false")
  | .vNull => some "null"
  | .vUndef => none
  | .vDate iso => some (jsonStr iso)
  | .vArr es => some ("[" ++ joinSep "," (jsonElems es) ++ "]")
  | .vObj fs => some ("\x7b" ++ joinSep "," (jsonFields fs) ++ "\x7d")

def jsonElems : JSList → List String
  | .nil => []
  | .cons v tl =>
    (match jsonVal v with | some s => s | none => "null") :: jsonElems tl

def jsonFields : JSFields → List String
  | .fnil => []
  | .fcons k v tl =>
    match jsonVal v with
    | some s => (jsonStr k ++ ":" ++ s) :: jsonFields tl
    | none => jsonFields tl

end

mutual

/-- JavaScript `String(v)` coercion as used by the template literal
`` `${encode(key)}=${encode(val)}` `` (the `Date` branch is unreachable in
`buildURL`, which converts dates with `toISOString()` first). -/
def jsToString : JSValue → String
  | .vStr s => s
  | .vNum n => toString n
  | .vBool b => if b then "true" else "false"
  | .vNull => "null"
  | .vUndef => "undefined"
  | .vDate iso => iso
  | .vArr es => joinSep "," (jsArrParts es)
  | .vObj _ => "[object Object]"

def jsArrParts : JSList → List String
  | .nil => []
  | .cons v tl =>
    (match v with
     | .vNull => ""
     | .vUndef => ""
     | v => jsToString v) :: jsArrParts tl

end

/-! ## helpers/util.ts predicates -/

/-- Source `helpers/util.ts` `isDate` (`toString.call(val) === '[object Date]'`). -/
def isDate : JSValue → Bool
  | .vDate _ => true
  | _ => false

/-- Source `helpers/util.ts` `isPlainObject` (`toString.call(val) === '[object Object]'`). -/
def isPlainObject : JSValue → Bool
  | .vObj _ => true
  | _ => false

/-- Test `val === null || typeof val === 'undefined'` of the source. -/
def isNullish : JSValue → Bool
  | .vNull => true
  | .vUndef => true
  | _ => false

/-! ## The top-level `params` argument

`params?: any` can be an object, a `URLSearchParams` instance (modelled by the
string its `toString()` yields), or any other JavaScript value, of which the
falsy ones matter for the `if (!params)` short-circuit. -/

inductive ParamsArg where
  | pUndef
  | pNull
  | pNaN
  | pNum (n : Int)
  | pStr (s : String)
  | pBool (b : Bool)
  | pObj (fields : JSFields)
  | pSearch (q : String)
  deriving DecidableEq

/-- JavaScript falsiness, as tested by `if (!params)`: `undefined`, `null`,
`NaN`, `0`, `''` and `false` are falsy; every object is truthy. -/
def jsFalsy : ParamsArg → Bool
  | .pUndef => true
  | .pNull => true
  | .pNaN => true
  | .pNum n => n == 0
  | .pStr s => s == ""
  | .pBool b => !b
  | .pObj _ => false
  | .pSearch _ => false

/-- Source `helpers/util.ts` `isURLSearchParams` (`val instanceof URLSearchParams`). -/
def isURLSearchParams : ParamsArg → Bool
  | .pSearch _ => true
  | _ => false

/-- Result of `params.toString()` for a `URLSearchParams` value. -/
def searchToString : ParamsArg → String
  | .pSearch q => q
  | _ => ""

/-- Index-keyed fields of a string, as `Object.keys` enumerates a string's
character positions. -/
def strFields (i : Nat) : List Char → JSFields
  | [] => .fnil
  | c :: cs => .fcons (toString i) (.vStr (String.singleton c)) (strFields (i + 1) cs)

/-- The own enumerable properties walked by
`Object.keys(params).forEach(key => params[key] ...)`: the fields of an
object, the indexed characters of a string, nothing for other primitives. -/
def objectEntries : ParamsArg → JSFields
  | .pObj fs => fs
  | .pStr s => strFields 0 s.toList
  | _ => .fnil

/-! ## Default structured serialization (the `else` branch of `buildURL`) -/

/-- The element transform of the inner `values.forEach` loop:
`if (isDate(val)) val = val.toISOString(); else if (isPlainObject(val))
val = JSON.stringify(val)`, then string coercion by the template literal. -/
def transformVal (v : JSValue) : String :=
  if isDate v then
    match v with
    | .vDate iso => iso
    | _ => ""
  else if isPlainObject v then
    match jsonVal v with
    | some s => s
    | none => "undefined"
  else jsToString v

/-- Segment text pushed for one element (the template literal of the source,
key and value each passed through `encode`). -/
def seg (key : String) (v : JSValue) : String :=
  encode key ++ "=" ++ encode (transformVal v)

def segsOf (key : String) : JSList → List String
  | .nil => []
  | .cons v tl => seg key v :: segsOf key tl

/-- Parts pushed for one `key`: nothing for null/undefined, one segment per
element with the key suffixed `[]` for an array, one segment otherwise. -/
def serializeEntry (key : String) (val : JSValue) : List String :=
  if isNullish val then []
  else
    match val with
    | .vArr es => segsOf (key ++ "[]") es
    | v => [seg key v]

def serializeFields : JSFields → List String
  | .fnil => []
  | .fcons k v tl => serializeEntry k v ++ serializeFields tl

/-- The serialized parameter string: custom serializer first, then
`URLSearchParams#toString`, then default structured serialization joined
with `&`. -/
def serializedOf (params : ParamsArg) (paramsSerializer : Option (ParamsArg → String)) : String :=
  match paramsSerializer with
  | some f => f params
  | none =>
    if isURLSearchParams params then searchToString params
    else joinSep "&" (serializeFields (objectEntries params))

/-- Truncation `url.slice(0, url.indexOf('#'))` when a `#` is present. -/
def stripHash (url : String) : String :=
  match url.toList.findIdx? (fun c => c == '#') with
  | some i => (url.toList.take i).asString
  | none => url

/-- Source `helpers/url.ts` `buildURL(url, params?, paramsSerializer?)`. -/
def buildURL (url : String) (params : ParamsArg)
    (paramsSerializer : Option (ParamsArg → String)) : String :=
  if jsFalsy params then url
  else
    let serializedParams := serializedOf params paramsSerializer
    if serializedParams = "" then url
    else
      let urlT :=
        match url.toList.findIdx? (fun c => c == '#') with
        | some i => (url.toList.take i).asString
        | none => url
      urlT ++ (if urlT.toList.contains '?' then "&" else "?") ++ serializedParams

/-! ## Derived and auxiliary definitions -/

/-- The merge step of `buildURL` applied to an already-serialized string. -/
def appendSerialized (url sp : String) : String :=
  if sp = "" then url
  else stripHash url ++ (if (stripHash url).toList.contains '?' then "&" else "?") ++ sp
/-- Tail-recursion eliminator for `JSFields` (the mutual recursor is not
needed: none of the serialization loops recurse into the values). -/
def JSFields.tailRec {motive : JSFields → Prop} (h0 : motive .fnil)
    (h1 : ∀ k v tl, motive tl → motive (.fcons k v tl)) : ∀ fs, motive fs
  | .fnil => h0
  | .fcons k v tl => h1 k v tl (JSFields.tailRec h0 h1 tl)

/-- Tail-recursion eliminator for `JSList`. -/
def JSList.tailRec {motive : JSList → Prop} (h0 : motive .nil)
    (h1 : ∀ v tl, motive tl → motive (.cons v tl)) : ∀ l, motive l
  | .nil => h0
  | .cons v tl => h1 v tl (JSList.tailRec h0 h1 tl)

def allNullish : JSFields → Bool
  | .fnil => true
  | .fcons _ v tl => isNullish v && allNullish tl

/-! ### Scalar classification (claim C1) -/

def isScalar : JSValue → Bool
  | .vStr _ => true
  | .vNum _ => true
  | .vBool _ => true
  | _ => false

def scalarFields : JSFields → Bool
  | .fnil => true
  | .fcons _ v tl => isScalar v && scalarFields tl

/-! ## C9: the parameter source is never mutated

The serialization loops of `buildURL` only read from `params` (`Object.keys`,
`params[key]`, `values.forEach`); the assignments `key += '[]'` and
`val = val.toISOString()` rebind local variables.  `buildURLSt` is the
statement-by-statement state-passing embedding of the same code: it threads
the params value through every step it touches and returns it alongside the
result. -/

def segsOfSt (key : String) : JSList → List String × JSList
  | .nil => ([], .nil)
  | .cons v tl => (seg key v :: (segsOfSt key tl).1, .cons v (segsOfSt key tl).2)

def serializeEntrySt (key : String) (val : JSValue) : List String × JSValue :=
  if isNullish val then ([], val)
  else
    match val with
    | .vArr es => ((segsOfSt (key ++ "[]") es).1, .vArr (segsOfSt (key ++ "[]") es).2)
    | v => ([seg key v], v)

def serializeFieldsSt : JSFields → List String × JSFields
  | .fnil => ([], .fnil)
  | .fcons k v tl =>
    ((serializeEntrySt k v).1 ++ (serializeFieldsSt tl).1,
     .fcons k (serializeEntrySt k v).2 (serializeFieldsSt tl).2)

def serializedOfSt (params : ParamsArg) (ser : Option (ParamsArg → String)) :
    String × ParamsArg :=
  match ser with
  | some f => (f params, params)
  | none =>
    if isURLSearchParams params then (searchToString params, params)
    else
      match params with
      | .pObj fields =>
        (joinSep "&" (serializeFieldsSt fields).1, .pObj (serializeFieldsSt fields).2)
      | p => (joinSep "&" (serializeFields (objectEntries p)), p)

def buildURLSt (url : String) (params : ParamsArg)
    (paramsSerializer : Option (ParamsArg → String)) : String × ParamsArg :=
  if jsFalsy params then (url, params)
  else
    let sp := serializedOfSt params paramsSerializer
    if sp.1 = "" then (url, sp.2)
    else
      let urlT :=
        match url.toList.findIdx? (fun c => c == '#') with
        | some i => (url.toList.take i).asString
        | none => url
      (urlT ++ (if urlT.toList.contains '?' then "&" else "?") ++ sp.1, sp.2)

/-! ## C8: the order of the seven replacement passes is irrelevant

After `encodeURIComponent`, every `%` in the string opens a well-formed
uppercase-hex escape; the seven patterns can therefore only match whole
escape tokens, every pass acts tokenwise, and passes with distinct patterns
commute. -/

def wfTok : Tok → Bool
  | .raw c => c != '%'
  | .esc a b => isUpHex a && isUpHex b

def wfToks (ts : List Tok) : Bool := ts.all wfTok

def escMatches (p : Pass) : Tok → Bool
  | .raw _ => false
  | .esc a b => chEq p.ci a p.p1 && chEq p.ci b p.p2

/-- The tokenwise action of one pass. -/
def passTok (p : Pass) (t : Tok) : Tok :=
  if escMatches p t then .raw p.r else t

def applyToks (ps : List Pass) (t : Tok) : Tok :=
  ps.foldl (fun t p => passTok p t) t

/-- Shape of every pass in `encodePasses`: pattern `%XY` with uppercase-hex
`X`, `Y`, replacement not `%`. -/
def PassOK (p : Pass) : Prop :=
  p.p0 = '%' ∧ isUpHex p.p1 = true ∧ isUpHex p.p2 = true ∧ p.r ≠ '%'

instance (p : Pass) : Decidable (PassOK p) :=
  decidable_of_iff
    (p.p0 = '%' ∧ isUpHex p.p1 = true ∧ isUpHex p.p2 = true ∧ p.r ≠ '%') Iff.rfl


/-! ## Theorems -/

theorem buildURL_truthy (url : String) (params : ParamsArg)
    (ser : Option (ParamsArg → String)) (h : jsFalsy params = false) :
    buildURL url params ser = appendSerialized url (serializedOf params ser) := by
  unfold buildURL appendSerialized stripHash
  rw [h]
  simp


/-- C10: for every url and every falsy params value — undefined, null, 0,
empty string, false, NaN — `buildURL` returns the url unchanged (fragment
included) without calling any supplied serializer, because the short-circuit
tests JavaScript falsiness. -/
theorem claim_C10_falsy_shortcircuit (url : String) (params : ParamsArg)
    (paramsSerializer : Option (ParamsArg → String)) (h : jsFalsy params = true) :
    buildURL url params paramsSerializer = url := by
  unfold buildURL
  rw [h]
  simp

theorem claim_C10_witness :
    buildURL "/base/get#hash" (.pStr "") (some (fun _ => "SERIALIZED")) = "/base/get#hash" :=
  claim_C10_falsy_shortcircuit _ _ _ (by decide)

/-- C7 counterexample: `encode "@:$, "` is not `"@:$+"` — the code also
restores the comma, which the claimed output drops. -/
theorem claim_C7_counterexample : encode "@:$, " ≠ "@:$+" := by decide

/-- C7 (amended): `encode "@:$, "` returns `"@:$,+"` — every allow-list
character (`@`, `:`, `$`, and also `,`) comes back unescaped and the trailing
space becomes `+`. -/
theorem claim_C7_encode_allowlist : encode "@:$, " = "@:$,+" := by decide

/-- C4: a key whose value is null or undefined emits no segment, and when
every value of a (truthy) params object is null or undefined the serialized
string is empty and `buildURL` returns the url unchanged, fragment included. -/
theorem claim_C4_nullish_omitted :
    (∀ key : String, serializeEntry key .vNull = [] ∧ serializeEntry key .vUndef = []) ∧
    (∀ (url : String) (fields : JSFields), allNullish fields = true →
      buildURL url (.pObj fields) none = url) := by
  constructor
  · intro key
    exact ⟨rfl, rfl⟩
  · intro url fields h
    have hsf : serializeFields fields = [] := by
      induction fields using JSFields.tailRec with
      | h0 => rfl
      | h1 k v tl ih =>
        rw [allNullish, Bool.and_eq_true] at h
        simp [serializeFields, serializeEntry, h.1, ih h.2]
    unfold buildURL
    simp [serializedOf, objectEntries, hsf, joinSep, jsFalsy, isURLSearchParams]

theorem claim_C4_witness :
    buildURL "/base/get#hash" (.pObj (.fcons "baz" .vNull (.fcons "quux" .vUndef .fnil))) none =
      "/base/get#hash" :=
  claim_C4_nullish_omitted.2 _ _ (by decide)

/-- C6 counterexample: the claim fails for the non-null falsy params `""` it
quantifies over — `if (!params)` returns the url (fragment intact) before the
supplied serializer is ever called, so the output is not the serializer's
result appended. -/
theorem claim_C6_counterexample :
    buildURL "/base/get#hash" (.pStr "") (some (fun _ => "S")) = "/base/get#hash" ∧
    buildURL "/base/get#hash" (.pStr "") (some (fun _ => "S")) ≠
      appendSerialized "/base/get#hash" "S" := by
  constructor <;> decide

/-- C6 (amended): for every truthy params, `buildURL` obtains the serialized
string in strict priority order — a supplied serializer is called with params
and its result used verbatim (also when params is a `URLSearchParams`
container); else a pre-serialized container contributes its string
conversion; else default structured serialization applies.  (For falsy
params, including the non-null falsy values `""`, `0`, `false` and `NaN`, the
short-circuit returns the url and the serializer is never called.) -/
theorem claim_C6_serializer_priority (url : String) (params : ParamsArg)
    (h : jsFalsy params = false) :
    (∀ f : ParamsArg → String,
      buildURL url params (some f) = appendSerialized url (f params)) ∧
    (isURLSearchParams params = true →
      buildURL url params none = appendSerialized url (searchToString params)) ∧
    (isURLSearchParams params = false →
      buildURL url params none =
        appendSerialized url (joinSep "&" (serializeFields (objectEntries params)))) := by
  refine ⟨fun f => ?_, fun hs => ?_, fun hs => ?_⟩
  · rw [buildURL_truthy url params _ h]
    rfl
  · rw [buildURL_truthy url params _ h]
    simp [serializedOf, hs]
  · rw [buildURL_truthy url params _ h]
    simp [serializedOf, hs]

theorem claim_C6_witness :
    buildURL "/more/get" (.pSearch "a=b&c=d") (some (fun _ => "RAW[]")) =
      appendSerialized "/more/get" "RAW[]" :=
  (claim_C6_serializer_priority "/more/get" (.pSearch "a=b&c=d") (by decide)).1 _

/-- C5: whenever the serialized parameter string is non-empty, `buildURL`
truncates the url at the first `#`, then appends the serialized string
preceded by `&` if the truncated url contains `?` and by `?` otherwise;
in particular `buildURL "/base/get#hash" {foo: "bar"} = "/base/get?foo=bar"`
and `buildURL "/base/get?foo=bar" {bar: "baz"} = "/base/get?foo=bar&bar=baz"`. -/
theorem claim_C5_fragment_strip_append :
    (∀ (url : String) (params : ParamsArg) (ser : Option (ParamsArg → String)),
      jsFalsy params = false → serializedOf params ser ≠ "" →
      buildURL url params ser =
        stripHash url ++ (if (stripHash url).toList.contains '?' then "&" else "?") ++
          serializedOf params ser) ∧
    buildURL "/base/get#hash" (.pObj (.fcons "foo" (.vStr "bar") .fnil)) none =
      "/base/get?foo=bar" ∧
    buildURL "/base/get?foo=bar" (.pObj (.fcons "bar" (.vStr "baz") .fnil)) none =
      "/base/get?foo=bar&bar=baz" := by
  refine ⟨fun url params ser h hne => ?_, by decide, by decide⟩
  rw [buildURL_truthy url params ser h]
  unfold appendSerialized
  rw [if_neg hne]

theorem claim_C5_witness :
    buildURL "/a#h?x" (.pObj (.fcons "k" (.vStr "v") .fnil)) none =
      stripHash "/a#h?x" ++
        (if (stripHash "/a#h?x").toList.contains '?' then "&" else "?") ++
        serializedOf (.pObj (.fcons "k" (.vStr "v") .fnil)) none :=
  claim_C5_fragment_strip_append.1 _ _ _ (by decide) (by decide)

/-- C2: a key whose value is an array of length n emits exactly n segments,
each keyed `key ++ "[]"`, in element order; in particular
`buildURL "/base/get" {foo: ["bar","baz"]} = "/base/get?foo[]=bar&foo[]=baz"`. -/
theorem claim_C2_array_segments :
    (∀ (key : String) (es : JSList),
      serializeEntry key (.vArr es) =
        es.toList.map (fun v => encode (key ++ "[]") ++ "=" ++ encode (transformVal v))) ∧
    buildURL "/base/get"
      (.pObj (.fcons "foo" (.vArr (.cons (.vStr "bar") (.cons (.vStr "baz") .nil))) .fnil)) none =
      "/base/get?foo[]=bar&foo[]=baz" := by
  constructor
  · intro key es
    have h : ∀ l : JSList, segsOf (key ++ "[]") l =
        l.toList.map (fun v => encode (key ++ "[]") ++ "=" ++ encode (transformVal v)) := by
      intro l
      induction l using JSList.tailRec with
      | h0 => rfl
      | h1 v tl ih => simp [segsOf, JSList.toList, seg, ih]
    simp [serializeEntry, isNullish, h]
  · decide

/-- C3: in default serialization a date-like element value is replaced by its
ISO-8601 string before encoding and a plain-object element value by its
compact JSON text before encoding; in particular
`buildURL "/base/get" {foo: {bar: "baz"}} = "/base/get?foo=%7B%22bar%22:%22baz%22%7D"`
(the `:` inside the JSON text is restored, not left as `%3A`). -/
theorem claim_C3_date_object_values :
    (∀ key iso : String, seg key (.vDate iso) = encode key ++ "=" ++ encode iso) ∧
    (∀ (key : String) (fs : JSFields),
      seg key (.vObj fs) =
        encode key ++ "=" ++ encode ("\x7b" ++ joinSep "," (jsonFields fs) ++ "\x7d")) ∧
    buildURL "/base/get"
      (.pObj (.fcons "foo" (.vObj (.fcons "bar" (.vStr "baz") .fnil)) .fnil)) none =
      "/base/get?foo=%7B%22bar%22:%22baz%22%7D" := by
  refine ⟨fun key iso => rfl, fun key fs => ?_, by decide⟩
  simp [seg, transformVal, isDate, isPlainObject, jsonVal]

theorem serializeEntry_scalar (k : String) (v : JSValue) (h : isScalar v = true) :
    serializeEntry k v = [encode k ++ "=" ++ encode (jsToString v)] := by
  cases v <;>
    simp_all [isScalar, serializeEntry, isNullish, seg, transformVal, isDate, isPlainObject]

theorem serializeFields_scalar (fields : JSFields) (h : scalarFields fields = true) :
    serializeFields fields =
      (fieldsToList fields).map (fun kv => encode kv.1 ++ "=" ++ encode (jsToString kv.2)) := by
  induction fields using JSFields.tailRec with
  | h0 => rfl
  | h1 k v tl ih =>
    rw [scalarFields, Bool.and_eq_true] at h
    simp [serializeFields, fieldsToList, serializeEntry_scalar k v h.1, ih h.2]

theorem joinSep_length_ge (sep x : String) (xs : List String) :
    x.length ≤ (joinSep sep (x :: xs)).length := by
  cases xs with
  | nil => simp [joinSep]
  | cons y ys =>
    simp [joinSep, String.length_append]
    omega

theorem stripHash_of_no_hash (url : String) (h : url.toList.contains '#' = false) :
    stripHash url = url := by
  unfold stripHash
  have hn : url.toList.findIdx? (fun c => c == '#') = none := by
    rw [List.findIdx?_eq_none_iff]
    intro x hx
    by_contra hc
    simp at hc
    subst hc
    simp at h
    exact h hx
  rw [hn]

/-- C1 counterexample: the claim fails as universally stated — for a url
carrying a `#` fragment the output is not the url followed by the query
(the fragment is stripped first), and for an empty params map no `?` is
appended at all. -/
theorem claim_C1_counterexample :
    buildURL "/base/get#hash" (.pObj (.fcons "foo" (.vStr "bar") .fnil)) none ≠
      "/base/get#hash" ++ "?" ++
        joinSep "&" [encode "foo" ++ "=" ++ encode (jsToString (.vStr "bar"))] ∧
    buildURL "/base/get" (.pObj .fnil) none ≠
      "/base/get" ++ "?" ++ joinSep "&" ([] : List String) := by
  constructor <;> decide

/-- C1 (amended): for every url containing no `#` and every nonempty params
map whose values are all scalars (string/number/boolean), `buildURL` with no
serializer returns url followed by exactly one `key=value` segment per entry,
key and value each passed through `encode`, segments joined by `&` in
key-enumeration order, the whole appended after a `?` (or `&` if url already
contains `?`). -/
theorem claim_C1_scalar_map_segments (url : String) (fields : JSFields)
    (hscal : scalarFields fields = true) (hne : fields ≠ .fnil)
    (hnohash : url.toList.contains '#' = false) :
    buildURL url (.pObj fields) none =
      url ++ (if url.toList.contains '?' then "&" else "?") ++
        joinSep "&" ((fieldsToList fields).map
          (fun kv => encode kv.1 ++ "=" ++ encode (jsToString kv.2))) := by
  have hser : serializedOf (.pObj fields) none =
      joinSep "&" ((fieldsToList fields).map
        (fun kv => encode kv.1 ++ "=" ++ encode (jsToString kv.2))) := by
    simp [serializedOf, isURLSearchParams, objectEntries, serializeFields_scalar fields hscal]
  have hnonempty : serializedOf (.pObj fields) none ≠ "" := by
    rw [hser]
    cases fields with
    | fnil => exact absurd rfl hne
    | fcons k v tl =>
      rw [fieldsToList, List.map_cons]
      intro he
      have h1 := joinSep_length_ge "&"
        (encode k ++ "=" ++ encode (jsToString v))
        ((fieldsToList tl).map (fun kv => encode kv.1 ++ "=" ++ encode (jsToString kv.2)))
      rw [he] at h1
      simp [String.length_append] at h1
      exact absurd h1.1.2 (by decide)
  rw [buildURL_truthy url (.pObj fields) none rfl, appendSerialized, if_neg hnonempty, hser,
    stripHash_of_no_hash url hnohash]

theorem claim_C1_witness :
    buildURL "/base/get" (.pObj (.fcons "a" (.vNum 1) (.fcons "b" (.vNum 2) .fnil))) none =
      "/base/get?a=1&b=2" :=
  (claim_C1_scalar_map_segments "/base/get" (.fcons "a" (.vNum 1) (.fcons "b" (.vNum 2) .fnil))
    (by decide) (by decide) (by decide)).trans (by decide)


theorem segsOfSt_eq (key : String) (es : JSList) :
    segsOfSt key es = (segsOf key es, es) := by
  induction es using JSList.tailRec with
  | h0 => rfl
  | h1 v tl ih => simp [segsOfSt, segsOf, ih]

theorem serializeEntrySt_eq (key : String) (val : JSValue) :
    serializeEntrySt key val = (serializeEntry key val, val) := by
  cases val <;> simp [serializeEntrySt, serializeEntry, isNullish, segsOfSt_eq, segsOf]

theorem serializeFieldsSt_eq (fields : JSFields) :
    serializeFieldsSt fields = (serializeFields fields, fields) := by
  induction fields using JSFields.tailRec with
  | h0 => rfl
  | h1 k v tl ih => simp [serializeFieldsSt, serializeFields, serializeEntrySt_eq, ih]

theorem serializedOfSt_eq (params : ParamsArg) (ser : Option (ParamsArg → String)) :
    serializedOfSt params ser = (serializedOf params ser, params) := by
  cases ser with
  | some f => rfl
  | none =>
    cases params <;> simp [serializedOfSt, serializedOf, isURLSearchParams, searchToString,
      serializeFieldsSt_eq, objectEntries]

/-- C9: `buildURL` never mutates its params argument — the state-passing
embedding `buildURLSt`, which threads the params value through every
operation the code performs on it, computes `buildURL`'s result and hands the
params mapping back exactly as it was. -/
theorem claim_C9_params_not_mutated (url : String) (params : ParamsArg)
    (paramsSerializer : Option (ParamsArg → String)) :
    buildURLSt url params paramsSerializer = (buildURL url params paramsSerializer, params) := by
  unfold buildURLSt buildURL
  rw [serializedOfSt_eq]
  cases hf : jsFalsy params
  · simp [hf]
    split <;> simp
  · simp [hf]
theorem flatten_cons (t : Tok) (ts : List Tok) :
    flatten (t :: ts) = flatTok t ++ flatten ts := by
  simp [flatten]

theorem isUpHex_mem {c : Char} (h : isUpHex c = true) : c ∈ upHexChars := by
  simpa [isUpHex] using h

theorem isUpHex_ne_percent {c : Char} (h : isUpHex c = true) : c ≠ '%' := by
  intro he
  rw [he] at h
  exact absurd h (by decide)

theorem toNat_ofNat_valid {n : Nat} (h : n.isValidChar) : (Char.ofNat n).toNat = n := by
  rw [Char.ofNat, dif_pos h]
  rfl

theorem toLower_ne_percent {c : Char} (h : c ≠ '%') : c.toLower ≠ '%' := by
  rw [Char.toLower]
  split
  · intro he
    have hv : ('%' : Char).toNat = 37 := by decide
    have h2 := congrArg Char.toNat he
    rw [toNat_ofNat_valid (Or.inl (by omega))] at h2
    omega
  · exact h

theorem chEq_percent_false (ci : Bool) {c : Char} (h : c ≠ '%') :
    chEq ci c '%' = false := by
  cases ci with
  | false => simpa [chEq] using h
  | true =>
    have h2 : c.toLower ≠ '%' := toLower_ne_percent h
    have h3 : ('%' : Char).toLower = '%' := by decide
    simp [chEq, h3]
    exact h2

theorem chEq_refl_percent (ci : Bool) : chEq ci '%' '%' = true := by
  cases ci <;> decide

theorem chEq_upHex (ci : Bool) {a b : Char} (ha : isUpHex a = true) (hb : isUpHex b = true) :
    chEq ci a b = (a == b) := by
  have ha' := isUpHex_mem ha
  have hb' := isUpHex_mem hb
  fin_cases ha' <;> fin_cases hb' <;> cases ci <;> decide

theorem replaceTri_cons_skip (p1 p2 r : Char) (ci : Bool) {c : Char} (l : List Char)
    (h : chEq ci c '%' = false) :
    replaceTri '%' p1 p2 r ci (c :: l) = c :: replaceTri '%' p1 p2 r ci l := by
  cases l with
  | nil => rfl
  | cons x l2 =>
    cases l2 with
    | nil => rfl
    | cons y rest => simp [replaceTri, h]

theorem isUpHex_hexU (n : Nat) : isUpHex (hexU n) = true := by
  rcases Nat.lt_or_ge n 16 with h | h
  · interval_cases n <;> decide
  · rw [hexU, List.getD_eq_default]
    · decide
    · have h16 : upHexChars.length = 16 := by decide
      omega

theorem wfTok_passTok (p : Pass) (hr : p.r ≠ '%') {t : Tok} (ht : wfTok t = true) :
    wfTok (passTok p t) = true := by
  rw [passTok]
  split
  · simpa [wfTok]
  · exact ht

theorem wfToks_map_passTok (p : Pass) (hr : p.r ≠ '%') (ts : List Tok)
    (hwf : wfToks ts = true) : wfToks (ts.map (passTok p)) = true := by
  rw [wfToks, List.all_eq_true] at *
  intro t ht
  rcases List.mem_map.mp ht with ⟨u, hu, rfl⟩
  exact wfTok_passTok p hr (hwf u hu)

theorem replaceTri_cons_match (p1 p2 r : Char) (ci : Bool) (a b : Char) (l : List Char)
    (h : (chEq ci a p1 && chEq ci b p2) = true) :
    replaceTri '%' p1 p2 r ci ('%' :: a :: b :: l) = r :: replaceTri '%' p1 p2 r ci l := by
  simp [replaceTri, chEq_refl_percent, h]

theorem replaceTri_cons_nomatch (p1 p2 r : Char) (ci : Bool) (a b : Char) (l : List Char)
    (h : (chEq ci a p1 && chEq ci b p2) = false) :
    replaceTri '%' p1 p2 r ci ('%' :: a :: b :: l) =
      '%' :: replaceTri '%' p1 p2 r ci (a :: b :: l) := by
  simp [replaceTri, chEq_refl_percent]
  intro h1 h2
  simp [h1, h2] at h

theorem runPass_flatten (p : Pass) (hp0 : p.p0 = '%') (ts : List Tok)
    (hwf : wfToks ts = true) :
    runPass (flatten ts) p = flatten (ts.map (passTok p)) := by
  induction ts with
  | nil => rfl
  | cons t ts ih =>
    rw [wfToks, List.all_cons, Bool.and_eq_true] at hwf
    have ihts := ih hwf.2
    rw [runPass, hp0] at ihts ⊢
    cases t with
    | raw c =>
      have hc : c ≠ '%' := by simpa [wfTok] using hwf.1
      have hpt : passTok p (Tok.raw c) = Tok.raw c := by simp [passTok, escMatches]
      rw [List.map_cons, flatten_cons, flatten_cons, hpt]
      simp only [flatTok, List.cons_append, List.nil_append]
      rw [replaceTri_cons_skip _ _ _ _ _ (chEq_percent_false _ hc), ihts]
    | esc a b =>
      rw [wfTok, Bool.and_eq_true] at hwf
      have ha := hwf.1.1
      have hb := hwf.1.2
      by_cases hm : (chEq p.ci a p.p1 && chEq p.ci b p.p2) = true
      · have hpt : passTok p (Tok.esc a b) = Tok.raw p.r := by simp [passTok, escMatches, hm]
        rw [List.map_cons, flatten_cons, flatten_cons, hpt]
        simp only [flatTok, List.cons_append, List.nil_append]
        rw [replaceTri_cons_match _ _ _ _ _ _ _ hm, ihts]
      · have hm2 : (chEq p.ci a p.p1 && chEq p.ci b p.p2) = false := by simpa using hm
        have hpt : passTok p (Tok.esc a b) = Tok.esc a b := by simp [passTok, escMatches, hm2]
        rw [List.map_cons, flatten_cons, flatten_cons, hpt]
        simp only [flatTok, List.cons_append, List.nil_append]
        rw [replaceTri_cons_nomatch _ _ _ _ _ _ _ hm2,
          replaceTri_cons_skip _ _ _ _ _ (chEq_percent_false _ (isUpHex_ne_percent ha)),
          replaceTri_cons_skip _ _ _ _ _ (chEq_percent_false _ (isUpHex_ne_percent hb)), ihts]

theorem foldl_runPass_flatten (ps : List Pass) (hok : ∀ p ∈ ps, PassOK p) (ts : List Tok)
    (hwf : wfToks ts = true) :
    ps.foldl runPass (flatten ts) = flatten (ts.map (applyToks ps)) := by
  induction ps generalizing ts with
  | nil =>
    have hmap : ts.map (applyToks []) = ts := by
      rw [show applyToks [] = fun t => t from rfl, List.map_id']
    rw [List.foldl_nil, hmap]
  | cons p ps ih =>
    have hp := hok p (List.mem_cons_self p ps)
    rw [List.foldl_cons, runPass_flatten p hp.1 ts hwf,
      ih (fun q hq => hok q (List.mem_cons_of_mem p hq)) (ts.map (passTok p))
        (wfToks_map_passTok p hp.2.2.2 ts hwf)]
    rw [List.map_map]
    rfl

theorem passTok_comm {p q : Pass} (hp : PassOK p) (hq : PassOK q)
    (hpq : (p.p1, p.p2) ≠ (q.p1, q.p2) ∨ p = q) {t : Tok} (ht : wfTok t = true) :
    passTok p (passTok q t) = passTok q (passTok p t) := by
  rcases hpq with hne | rfl
  · cases t with
    | raw c => simp [passTok, escMatches]
    | esc a b =>
      rw [wfTok, Bool.and_eq_true] at ht
      have e1 := chEq_upHex p.ci ht.1 hp.2.1
      have e2 := chEq_upHex p.ci ht.2 hp.2.2.1
      have e3 := chEq_upHex q.ci ht.1 hq.2.1
      have e4 := chEq_upHex q.ci ht.2 hq.2.2.1
      by_cases hbp : (a == p.p1 && b == p.p2) = true
      · by_cases hbq : (a == q.p1 && b == q.p2) = true
        · exfalso
          apply hne
          simp only [beq_iff_eq, Bool.and_eq_true] at hbp hbq
          rw [← hbp.1, ← hbp.2, ← hbq.1, ← hbq.2]
        · simp [passTok, escMatches, e1, e2, e3, e4, hbp, hbq]
      · by_cases hbq : (a == q.p1 && b == q.p2) = true
        · simp [passTok, escMatches, e1, e2, e3, e4, hbp, hbq]
        · simp [passTok, escMatches, e1, e2, e3, e4, hbp, hbq]
  · rfl

theorem applyToks_perm {l₁ l₂ : List Pass} (hperm : l₁.Perm l₂) :
    (∀ p ∈ l₁, PassOK p) →
    (∀ p ∈ l₁, ∀ q ∈ l₁, (p.p1, p.p2) ≠ (q.p1, q.p2) ∨ p = q) →
    ∀ t : Tok, wfTok t = true → applyToks l₁ t = applyToks l₂ t := by
  induction hperm with
  | nil =>
    intro _ _ t _
    rfl
  | cons x h ih =>
    intro hok hcomm t ht
    rw [applyToks, applyToks, List.foldl_cons, List.foldl_cons]
    exact ih (fun p hp => hok p (List.mem_cons_of_mem x hp))
      (fun p hp q hq => hcomm p (List.mem_cons_of_mem x hp) q (List.mem_cons_of_mem x hq))
      (passTok x t) (wfTok_passTok x (hok x (List.mem_cons_self x _)).2.2.2 ht)
  | swap x y l =>
    intro hok hcomm t ht
    rw [applyToks, applyToks, List.foldl_cons, List.foldl_cons, List.foldl_cons,
      List.foldl_cons]
    rw [passTok_comm (hok x (by simp)) (hok y (by simp))
      (hcomm x (by simp) y (by simp)) ht]
  | trans h₁ h₂ ih₁ ih₂ =>
    intro hok hcomm t ht
    rw [ih₁ hok hcomm t ht,
      ih₂ (fun p hp => hok p (h₁.mem_iff.mpr hp))
        (fun p hp q hq => hcomm p (h₁.mem_iff.mpr hp) q (h₁.mem_iff.mpr hq)) t ht]

theorem wfToks_encTokens (c : Char) : wfToks (encTokens c) = true := by
  rw [encTokens]
  by_cases h : isUnreservedChar c = true
  · rw [if_pos h]
    have hc : c ≠ '%' := by
      intro he
      rw [he] at h
      exact absurd h (by decide)
    simp [wfToks, wfTok, hc]
  · rw [if_neg h, wfToks, List.all_eq_true]
    intro t ht
    rcases List.mem_map.mp ht with ⟨b, _, rfl⟩
    simp [wfTok, isUpHex_hexU]

theorem wfToks_strTokens (l : List Char) : wfToks (strTokens l) = true := by
  induction l with
  | nil => rfl
  | cons c cs ih =>
    have hs : strTokens (c :: cs) = encTokens c ++ strTokens cs := by
      simp [strTokens]
    rw [hs, wfToks, List.all_append]
    rw [wfToks] at ih
    have he := wfToks_encTokens c
    rw [wfToks] at he
    rw [ih, he]
    rfl

/-- C8: the result of `encode` is independent of the order of the seven
replacement passes applied after the initial percent-encoding pass — any
permutation of `encodePasses` folded over the `encodeURIComponent` output
yields `encode`'s result, because on that output the patterns are disjoint
and no replacement creates a new occurrence of any pattern. -/
theorem claim_C8_pass_order_irrelevant (perm : List Pass) (hperm : perm.Perm encodePasses)
    (s : String) :
    (perm.foldl runPass (percentEncodeL s.toList)).asString = encode s := by
  have hok : ∀ p ∈ encodePasses, PassOK p := by decide
  have hcomm : ∀ p ∈ encodePasses, ∀ q ∈ encodePasses,
      (p.p1, p.p2) ≠ (q.p1, q.p2) ∨ p = q := by decide
  have hokp : ∀ p ∈ perm, PassOK p := fun p hp => hok p (hperm.mem_iff.mp hp)
  have hcommp : ∀ p ∈ perm, ∀ q ∈ perm, (p.p1, p.p2) ≠ (q.p1, q.p2) ∨ p = q :=
    fun p hp q hq => hcomm p (hperm.mem_iff.mp hp) q (hperm.mem_iff.mp hq)
  have hwf := wfToks_strTokens s.toList
  rw [encode, percentEncodeL,
    foldl_runPass_flatten perm hokp _ hwf,
    foldl_runPass_flatten encodePasses hok _ hwf]
  congr 1
  apply congrArg
  apply List.map_congr_left
  intro t ht
  rw [wfToks] at hwf
  exact applyToks_perm hperm hokp hcommp t (List.all_eq_true.mp hwf t ht)

theorem claim_C8_witness :
    (encodePasses.reverse.foldl runPass (percentEncodeL "a b@[c]:d$,#".toList)).asString =
      encode "a b@[c]:d$,#" :=
  claim_C8_pass_order_irrelevant encodePasses.reverse
    (List.reverse_perm encodePasses) "a b@[c]:d$,#"
